import Mathlib

/-!
Verification of the segmentation and job-orchestration engine of EditSuite
(src/EditSuite.py, class VideoSplitterWorker).

The development shallowly embeds the worker's logic over exact rationals
(Python floats are modelled as ℚ) and explicit char-list string processing
(Python str operations are modelled by faithful executable analogues).
External effects (subprocess invocations, the file system, Qt signals) are
modelled by parameters describing their observable results, and the emitted
Qt signals are modelled as an explicit event list.
-/

namespace EditSuite

/-! ## Characters and digits -/

/-- The decimal digit characters, used to render non-negative integers the
way Python's str.format does. -/
def digitChar : ℕ → Char
  | 0 => '0'
  | 1 => '1'
  | 2 => '2'
  | 3 => '3'
  | 4 => '4'
  | 5 => '5'
  | 6 => '6'
  | 7 => '7'
  | 8 => '8'
  | 9 => '9'
  | _ => '*'

/-- Numeric value of a decimal digit character. -/
def digitVal (c : Char) : ℕ := c.toNat - Char.toNat '0'

/-- Fuelled most-significant-first decimal rendering of a natural number;
returns the empty list for 0.  Fuel at least n suffices. -/
def natCharsFuel : ℕ → ℕ → List Char
  | 0, _ => []
  | fuel + 1, n => if n = 0 then [] else natCharsFuel fuel (n / 10) ++ [digitChar (n % 10)]

/-- Decimal digits of a natural number, as Python's str(int) renders it. -/
def natChars (n : ℕ) : List Char := if n = 0 then ['0'] else natCharsFuel n n

/-- Python str(int) for a natural number. -/
def natStr (n : ℕ) : String := ⟨natChars n⟩

/-- Zero-padding to a given width, as in Python format specifiers such as 03d. -/
def padZeros (width : ℕ) (ds : List Char) : List Char :=
  List.replicate (width - ds.length) '0' ++ ds

/-- Python f-string formatting of a natural number with format 03d
(used for output segment numbers in filenames). -/
def natPad3 (n : ℕ) : String := ⟨padZeros 3 (natChars n)⟩

/-- Python f-string formatting of an integer with format 02d:
the total field width is 2, counting a leading minus sign. -/
def intPad2 (i : ℤ) : List Char :=
  if i < 0 then '-' :: padZeros 1 (natChars i.natAbs) else padZeros 2 (natChars i.toNat)

/-! ## Python string primitives (str.strip, str.split, int(), float())

These model the CPython behaviour on the inputs this program can produce.
(Unicode whitespace beyond ASCII, underscores in numeric literals and
exponent/infinity float syntax are not modelled; the program never
produces them.) -/

/-- ASCII whitespace as recognised by Python str.strip(). -/
def pyIsSpace (c : Char) : Bool :=
  c = ' ' || c = '\t' || c = '\n' || c = '\r' || c = '\x0b' || c = '\x0c'

/-- Python str.strip() on a character list. -/
def pyStripChars (cs : List Char) : List Char :=
  ((cs.dropWhile pyIsSpace).reverse.dropWhile pyIsSpace).reverse

/-- Python str.strip(). -/
def pyStrip (s : String) : String := ⟨pyStripChars s.data⟩

/-- Remove a given list as a prefix, if present. -/
def dropPre : List Char → List Char → Option (List Char)
  | [], xs => some xs
  | _ :: _, [] => none
  | p :: ps, x :: xs => if p = x then dropPre ps xs else none

/-- Python str.split(sep) for a single-character separator. -/
def splitOnCh (sep : Char) : List Char → List (List Char)
  | [] => [[]]
  | x :: xs =>
    if x = sep then [] :: splitOnCh sep xs
    else (splitOnCh sep xs).modifyHead (fun l => x :: l)

/-- Python str.split(sep) for a multi-character separator c :: cs, with
explicit fuel (fuel at least the length of the input gives the true
behaviour; each step consumes at least one character). -/
def splitOnStrFuel (c : Char) (cs : List Char) : ℕ → List Char → List (List Char)
  | _, [] => [[]]
  | 0, x :: xs => [x :: xs]
  | fuel + 1, x :: xs =>
    match dropPre (c :: cs) (x :: xs) with
    | some r => [] :: splitOnStrFuel c cs fuel r
    | none => (splitOnStrFuel c cs fuel xs).modifyHead (fun l => x :: l)

/-- Python str.split(sep) on character lists, dispatching on the separator.
(Python raises ValueError on an empty separator; the program never passes
one, and we return the whole string in that case.) -/
def pySplitChars : List Char → List Char → List (List Char)
  | [], xs => [xs]
  | [c], xs => splitOnCh c xs
  | c :: c2 :: cs, xs => splitOnStrFuel c (c2 :: cs) xs.length xs

/-- Python str.split(sep) for a non-empty separator string. -/
def pySplit (sep s : String) : List String :=
  (pySplitChars sep.data s.data).map (fun l => ⟨l⟩)

/-- Value of a most-significant-first decimal digit list. -/
def natVal (ds : List Char) : ℕ :=
  ds.foldl (fun a c => 10 * a + digitVal c) 0

/-- Parse a non-empty all-digit character list, else fail. -/
def parseNatDigits (ds : List Char) : Option ℕ :=
  if ds.isEmpty then none
  else if ds.all Char.isDigit then some (natVal ds) else none

/-- Python int(str) after whitespace stripping: optional sign, then digits. -/
def pyIntCore : List Char → Option ℤ
  | [] => none
  | c :: cs =>
    if c = '-' then (parseNatDigits cs).map (fun (n : ℕ) => -(n : ℤ))
    else if c = '+' then (parseNatDigits cs).map (fun (n : ℕ) => (n : ℤ))
    else (parseNatDigits (c :: cs)).map (fun (n : ℕ) => (n : ℤ))

/-- Python int(str): raises (here: none) unless the stripped string is an
optionally signed run of decimal digits. -/
def pyInt (s : String) : Option ℤ := pyIntCore (pyStripChars s.data)

/-- The unsigned body of a Python float literal, after splitting on the
decimal point: digits, digits.digits, .digits or digits. with at least one
digit overall; more than one point fails. -/
def parseFloatParts : List (List Char) → Option ℚ
  | [a] => (parseNatDigits a).map (fun (n : ℕ) => (n : ℚ))
  | [a, b] =>
    if a.isEmpty && b.isEmpty then none
    else if a.all Char.isDigit && b.all Char.isDigit then
      some ((natVal a : ℚ) + (natVal b : ℚ) / 10 ^ b.length)
    else none
  | _ => none

/-- Python float(str) after sign handling. -/
def parseFloatCore (ds : List Char) : Option ℚ :=
  parseFloatParts (splitOnCh '.' ds)

/-- Python float(str) after whitespace stripping: optional sign, then the
unsigned decimal body. -/
def pyFloatCore : List Char → Option ℚ
  | [] => none
  | c :: cs =>
    if c = '-' then (parseFloatCore cs).map (fun q => -q)
    else if c = '+' then parseFloatCore cs
    else parseFloatCore (c :: cs)

/-- Python float(str) on plain decimal notation. -/
def pyFloat (s : String) : Option ℚ := pyFloatCore (pyStripChars s.data)

/-- Python float modulo (sign of the divisor): a - b * floor(a / b). -/
def pyMod (a b : ℚ) : ℚ := a - b * ⌊a / b⌋

/-! ## Time conversion helpers (VideoSplitterWorker.time_to_seconds,
VideoSplitterWorker.seconds_to_time; src/EditSuite.py lines 203-219) -/

/-- Combining the three parsed fields of a time string; any parse failure
was raised in Python and caught, yielding 0. -/
def combineTime : Option ℤ → Option ℤ → Option ℚ → ℚ
  | some hours, some minutes, some seconds =>
    (hours : ℚ) * 3600 + (minutes : ℚ) * 60 + seconds
  | _, _, _ => 0

/-- VideoSplitterWorker.time_to_seconds: split on a colon, int() the first
two fields, float() the third, combine; any failure (too few fields or an
unparsable field) is caught and yields 0. -/
def time_to_seconds (time_str : String) : ℚ :=
  match pySplit ":" time_str with
  | p0 :: p1 :: p2 :: _ => combineTime (pyInt p0) (pyInt p1) (pyFloat p2)
  | _ => 0

/-- VideoSplitterWorker.seconds_to_time: floor-divide into hour, minute and
second fields and format each with 02d.  Python's int() truncates toward
zero, which agrees with the floor here since the % 3600 and % 60 results
are non-negative and the code is only called with non-negative durations. -/
def seconds_to_time (seconds : ℚ) : String :=
  ⟨intPad2 ⌊seconds / 3600⌋ ++ ':' :: intPad2 ⌊pyMod seconds 3600 / 60⌋ ++
    ':' :: intPad2 ⌊pyMod seconds 60⌋⟩

/-! ## Duration probing (VideoSplitterWorker.get_video_duration,
VideoSplitterWorker.get_duration_fallback; src/EditSuite.py lines 108-149) -/

/-- The scan of VideoSplitterWorker.get_duration_fallback over the lines of
ffmpeg's stderr: the first line containing the text Duration: has the part
after that text, up to the next comma, stripped and parsed; if no line
contains it the function returns 0.  (The Python membership test
sep in line is expressed as its split on sep having at least two parts.) -/
def findDurationLine : List String → ℚ
  | [] => 0
  | line :: rest =>
    if 2 ≤ (pySplit "Duration:" line).length then
      time_to_seconds
        (pyStrip (((pySplit "," ((pySplit "Duration:" line).getD 1 ""))).getD 0 ""))
    else findDurationLine rest

/-- VideoSplitterWorker.get_duration_fallback, as a function of the textual
stderr stream produced by the bounded (60 s) ffmpeg diagnostic pass.  A
subprocess failure is modelled by the caller passing the produced text
(possibly empty); any exception yields 0, matching the bare except. -/
def get_duration_fallback (ffmpegLog : String) : ℚ :=
  findDurationLine (pySplit "\n" ffmpegLog)

/-- Observable result of the primary ffprobe tier: either it returned exit
status 0 with a parsable numeric duration field, or it failed (non-zero
status, timeout, or unparsable JSON) and the fallback tier ran, producing
the given diagnostic text. -/
inductive ProbeOutcome
  | primary (duration : ℚ)
  | fallback (stderrText : String)

/-- VideoSplitterWorker.get_video_duration: the primary ffprobe tier's value
when it succeeds, otherwise the fallback parse of the diagnostic stream. -/
def get_video_duration : ProbeOutcome → ℚ
  | .primary d => d
  | .fallback s => get_duration_fallback s

/-! ## Segment encoding (VideoSplitterWorker.split_segment;
src/EditSuite.py lines 151-201) -/

/-- The fixed per-segment timeout passed to subprocess.run (seconds). -/
def encodeTimeoutSeconds : ℕ := 300

/-- Quality settings of the ffmpeg command (src/EditSuite.py lines 165-170). -/
def qualityArgs (quality : String) : List String :=
  if quality = "high" then ["-c:v", "libx264", "-crf", "18"]
  else if quality = "medium" then ["-c:v", "libx264", "-crf", "23"]
  else ["-c:v", "libx264", "-crf", "28"]

/-- Audio settings of the ffmpeg command (src/EditSuite.py lines 173-176). -/
def audioArgs (keepAudio : Bool) : List String :=
  if keepAudio then ["-c:a", "aac", "-b:a", "128k"] else ["-an"]

/-- The ffmpeg invocation built by split_segment (src/EditSuite.py lines
155-183).  Numeric arguments are rendered with Lean's rational printer
rather than Python's float repr; no claim concerns their text. -/
def buildSegmentCmd (videoPath : String) (startTime duration : ℚ)
    (quality : String) (keepAudio : Bool) (outputPath : String) : List String :=
  ["ffmpeg", "-y", "-ss", toString startTime, "-i", videoPath, "-t", toString duration]
    ++ qualityArgs quality ++ audioArgs keepAudio
    ++ ["-avoid_negative_ts", "make_zero", "-movflags", "+faststart", outputPath]

/-- Observable result of the external encode operation run by
split_segment: the process completed with an exit status and the output
file either exists on disk or not, or the 300-second timeout expired
(subprocess.TimeoutExpired), or some other exception was raised. -/
inductive EncodeProcResult
  | completed (returncode : ℤ) (outputExists : Bool)
  | timedOut
  | raised (msg : String)

/-- VideoSplitterWorker.split_segment's returned success flag: exit status
zero and the destination file present; a timeout or any exception is caught
and reported as failure (src/EditSuite.py lines 194-201). -/
def split_segment : EncodeProcResult → Bool
  | .completed returncode outputExists => returncode == 0 && outputExists
  | .timedOut => false
  | .raised _ => false

/-! ## Segment planning (the loop bounds of VideoSplitterWorker.run;
src/EditSuite.py lines 48-72) -/

/-- total_segments = math.ceil(duration / segment_duration). -/
def nSeg (duration : ℚ) (segmentDuration : ℕ) : ℕ :=
  (⌈duration / (segmentDuration : ℚ)⌉).toNat

/-- start_time = i * self.segment_duration (src/EditSuite.py line 64). -/
def windowStart (segmentDuration : ℕ) (i : ℕ) : ℚ := (i : ℚ) * (segmentDuration : ℚ)

/-- end_time = min(start_time + self.segment_duration, duration)
(src/EditSuite.py line 68). -/
def windowEnd (duration : ℚ) (segmentDuration : ℕ) (i : ℕ) : ℚ :=
  min (windowStart segmentDuration i + (segmentDuration : ℚ)) duration

/-- actual_duration = end_time - start_time (src/EditSuite.py line 69). -/
def windowLen (duration : ℚ) (segmentDuration : ℕ) (i : ℕ) : ℚ :=
  windowEnd duration segmentDuration i - windowStart segmentDuration i

/-- The windows the run loop actually attempts, in order: for each i below
the ceiling count, the window is kept with 1-based index i+1 unless its
actual duration is at most 1 second (src/EditSuite.py lines 60-72). -/
def segPlan (duration : ℚ) (segmentDuration : ℕ) : List (ℕ × ℚ × ℚ) :=
  (List.range (nSeg duration segmentDuration)).filterMap (fun (i : ℕ) =>
    if windowLen duration segmentDuration i ≤ 1 then none
    else some ((i + 1 : ℕ), windowStart segmentDuration i, windowEnd duration segmentDuration i))

/-! ## The worker run loop (VideoSplitterWorker.run;
src/EditSuite.py lines 37-106) -/

/-- One emitted Qt signal of the worker. -/
inductive Event
  | progress (percent : ℤ)
  | status (text : String)
  | log (text : String)
  | finishedEv (success : Bool) (message : String)
  | segmentCompleted (path : String) (num : ℕ)

/-- The inputs of one worker run together with the observable behaviour of
its environment: the probed duration, whether os.makedirs succeeds (its
failure is the representative in-run exception, handled by the outer
except), the per-window encode results, and the cancellation schedule.
cancelAt = some k means the k-th read of the is_running flag is the first
to observe false (the flag is read once at the top of each loop iteration,
then once after the loop); cancelAt = none means no cancel request. -/
structure WorkerCfg where
  videoBase : String
  videoName : String
  outputDir : String
  duration : ℚ
  segmentDuration : ℕ
  mkdirOk : Bool
  errMsg : String
  encodeOk : ℕ → Bool
  cancelAt : Option ℕ

/-- Value of the is_running flag at its j-th read, for a given cancellation
schedule.  The flag is monotone: once false it stays false. -/
def isRunningAt (cancelAt : Option ℕ) (j : ℕ) : Bool :=
  match cancelAt with
  | none => true
  | some k => decide (j < k)

/-- The observable result of one run: the emitted events in order, and one
(segment number, success) record per invoked split_segment, in order. -/
structure RunOutput where
  events : List Event
  outcomes : List (ℕ × Bool)

/-- The per-iteration outcome record of the run loop: none when the window
is shorter than or equal to 1 second (the continue branch: split_segment is
not invoked), otherwise the 1-based segment number with its encode result. -/
def windowOutcome (cfg : WorkerCfg) (i : ℕ) : Option (ℕ × Bool) :=
  if windowLen cfg.duration cfg.segmentDuration i ≤ 1 then none
  else some (i + 1, cfg.encodeOk i)

/-- output_filename (src/EditSuite.py line 78). -/
def outputFilename (cfg : WorkerCfg) (segmentNum : ℕ) : String :=
  cfg.videoName ++ "_part_" ++ natPad3 segmentNum ++ ".mp4"

/-- output_path = os.path.join(output_dir, output_filename), with a POSIX
separator (src/EditSuite.py line 79). -/
def outputPath (cfg : WorkerCfg) (segmentNum : ℕ) : String :=
  cfg.outputDir ++ "/" ++ outputFilename cfg segmentNum

/-- The events emitted for loop iteration i (src/EditSuite.py lines 64-93):
nothing for a skipped sub-1-second window; otherwise the status line, the
processing log line, then on success the segment_completed signal and a
completion log (on failure a failure log), then the progress signal with
value int(segment_num / total_segments * 100).  Emoji prefixes of the log
lines are omitted. -/
def windowEvents (cfg : WorkerCfg) (n : ℕ) (i : ℕ) : List Event :=
  if windowLen cfg.duration cfg.segmentDuration i ≤ 1 then []
  else
    Event.status ("Creating segment " ++ natStr (i + 1) ++ "/" ++ natStr n ++ "...") ::
    Event.log ("Processing segment " ++ natStr (i + 1) ++ ": " ++
      seconds_to_time (windowStart cfg.segmentDuration i) ++ " - " ++
      seconds_to_time (windowEnd cfg.duration cfg.segmentDuration i)) ::
    ((if cfg.encodeOk i then
        [Event.segmentCompleted (outputPath cfg (i + 1)) (i + 1),
         Event.log ("Segment " ++ natStr (i + 1) ++ " completed: " ++ outputFilename cfg (i + 1))]
      else [Event.log ("Failed to create segment " ++ natStr (i + 1))])
      ++ [Event.progress ⌊((i + 1 : ℕ) : ℚ) / (n : ℚ) * 100⌋])

/-- The for-loop of VideoSplitterWorker.run over the remaining iteration
indices: the is_running flag is read at the top of each iteration and a
false read breaks out; a sub-1-second window contributes nothing (continue);
an attempted window contributes its events and its outcome record. -/
def runSegments (cfg : WorkerCfg) (n : ℕ) : List ℕ → List Event × List (ℕ × Bool)
  | [] => ([], [])
  | i :: rest =>
    if isRunningAt cfg.cancelAt i then
      let tail := runSegments cfg n rest
      (windowEvents cfg n i ++ tail.1, (windowOutcome cfg i).toList ++ tail.2)
    else ([], [])

/-- The status and log emitted at the start of every run
(src/EditSuite.py lines 39-40). -/
def preEvents (cfg : WorkerCfg) : List Event :=
  [Event.status "Analyzing video...",
   Event.log ("Starting video split: " ++ cfg.videoBase)]

/-- The three informational log lines emitted after the ceiling division
(src/EditSuite.py lines 49-51). -/
def infoLogEvents (cfg : WorkerCfg) (n : ℕ) : List Event :=
  [Event.log ("Video duration: " ++ seconds_to_time cfg.duration),
   Event.log ("Segment duration: " ++ seconds_to_time (cfg.segmentDuration : ℚ)),
   Event.log ("Total segments to create: " ++ natStr n)]

/-- The events emitted after the loop (src/EditSuite.py lines 95-102): if
the is_running flag is still observed true, success with a count when at
least one segment succeeded and the no-segments failure otherwise;
a cancellation message when the flag was observed false. -/
def finalEvents (cfg : WorkerCfg) (n successfulSegments : ℕ) : List Event :=
  if isRunningAt cfg.cancelAt n then
    if 0 < successfulSegments then
      [Event.log ("Successfully created " ++ natStr successfulSegments ++ " segments"),
       Event.finishedEv true
         ("Successfully split video into " ++ natStr successfulSegments ++ " segments")]
    else [Event.finishedEv false "No segments were created successfully"]
  else [Event.finishedEv false "Operation cancelled by user"]

/-- VideoSplitterWorker.run.  In order: the analysing status and starting
log; the duration check (duration at most 0 reports failure immediately);
the ceiling division (a zero segment duration raises ZeroDivisionError,
caught by the outer except); the three informational log lines; makedirs
(whose failure is caught by the outer except); the segment loop; and the
final outcome events. -/
def runWorker (cfg : WorkerCfg) : RunOutput :=
  if cfg.duration ≤ 0 then
    ⟨preEvents cfg ++ [Event.finishedEv false "Could not determine video duration"], []⟩
  else if cfg.segmentDuration = 0 then
    ⟨preEvents cfg ++ [Event.log "Error: float division by zero",
                       Event.finishedEv false "Error: float division by zero"], []⟩
  else
    let n := nSeg cfg.duration cfg.segmentDuration
    if cfg.mkdirOk = false then
      ⟨preEvents cfg ++ infoLogEvents cfg n ++
        [Event.log ("Error: " ++ cfg.errMsg),
         Event.finishedEv false ("Error: " ++ cfg.errMsg)], []⟩
    else
      let res := runSegments cfg n (List.range n)
      ⟨preEvents cfg ++ infoLogEvents cfg n ++ res.1 ++
        finalEvents cfg n ((res.2.filter (fun o => o.2)).length), res.2⟩

/-! ## Event extractors -/

/-- The (success, message) pairs of the finished signals among a run's events. -/
def finishedEvents (events : List Event) : List (Bool × String) :=
  events.filterMap (fun e =>
    match e with
    | Event.finishedEv ok msg => some (ok, msg)
    | _ => none)

/-- The values of the progress signals among a run's events, in order. -/
def progressEvents (events : List Event) : List ℤ :=
  events.filterMap (fun e =>
    match e with
    | Event.progress p => some p
    | _ => none)

/-- The (path, segment number) pairs of the segment_completed signals among
a run's events, in order. -/
def segmentCompletedEvents (events : List Event) : List (String × ℕ) :=
  events.filterMap (fun e =>
    match e with
    | Event.segmentCompleted p n => some (p, n)
    | _ => none)

/-- A concrete run configuration used in several concrete evaluations: a
121-second source split into 60-second windows (the 1-second final window
is dropped), a working output directory, all encodes succeeding, and no
cancellation. -/
def cfgExample : WorkerCfg :=
  ⟨"v.mp4", "v", "out", 121, 60, true, "", fun _ => true, none⟩

/-! ## Lemmas: decimal digits and their parsing -/

theorem digitVal_digitChar {d : ℕ} (h : d < 10) : digitVal (digitChar d) = d := by
  interval_cases d <;> rfl

theorem isDigit_digitChar {d : ℕ} (h : d < 10) : (digitChar d).isDigit = true := by
  interval_cases d <;> rfl

theorem isDigit_all_natCharsFuel :
    ∀ fuel n : ℕ, ∀ c ∈ natCharsFuel fuel n, c.isDigit = true := by
  intro fuel
  induction fuel with
  | zero => intro n c hc; simp [natCharsFuel] at hc
  | succ fuel ih =>
    intro n c hc
    by_cases hn : n = 0
    · simp [natCharsFuel, hn] at hc
    · simp only [natCharsFuel, if_neg hn, List.mem_append, List.mem_singleton] at hc
      rcases hc with hc | rfl
      · exact ih _ _ hc
      · exact isDigit_digitChar (Nat.mod_lt _ (by norm_num))

theorem isDigit_all_natChars (n : ℕ) : ∀ c ∈ natChars n, c.isDigit = true := by
  intro c hc
  unfold natChars at hc
  by_cases hn : n = 0
  · simp [hn] at hc; simp [hc]
  · exact isDigit_all_natCharsFuel n n c (by simpa [hn] using hc)

theorem natChars_ne_nil (n : ℕ) : natChars n ≠ [] := by
  unfold natChars
  by_cases hn : n = 0
  · simp [hn]
  · obtain ⟨m, rfl⟩ := Nat.exists_eq_succ_of_ne_zero hn
    simp [natCharsFuel, hn]

theorem foldl_natCharsFuel :
    ∀ fuel n : ℕ, n ≤ fuel → ∀ a : ℕ,
      (natCharsFuel fuel n).foldl (fun a c => 10 * a + digitVal c) a =
        a * 10 ^ (natCharsFuel fuel n).length + n := by
  intro fuel
  induction fuel with
  | zero =>
    intro n hn a
    interval_cases n
    simp [natCharsFuel]
  | succ fuel ih =>
    intro n hn a
    by_cases h0 : n = 0
    · simp [natCharsFuel, h0]
    · have hdiv : n / 10 ≤ fuel := by
        have h1 : n / 10 < n := Nat.div_lt_self (Nat.pos_of_ne_zero h0) (by norm_num)
        omega
      simp only [natCharsFuel, if_neg h0, List.foldl_append, List.foldl_cons,
        List.foldl_nil, List.length_append, List.length_singleton]
      rw [ih _ hdiv a]
      rw [digitVal_digitChar (Nat.mod_lt _ (by norm_num))]
      have hmod : 10 * (n / 10) + n % 10 = n := Nat.div_add_mod n 10
      ring_nf
      omega

theorem natVal_natChars (n : ℕ) : natVal (natChars n) = n := by
  unfold natVal natChars
  by_cases hn : n = 0
  · simp [hn]; rfl
  · rw [if_neg hn, foldl_natCharsFuel n n le_rfl 0]
    ring

theorem natVal_padZeros (w : ℕ) (ds : List Char) :
    natVal (padZeros w ds) = natVal ds := by
  unfold natVal padZeros
  generalize w - ds.length = k
  induction k with
  | zero => simp
  | succ k ih => simpa [List.replicate_succ, digitVal] using ih

theorem padZeros_ne_nil (w : ℕ) {ds : List Char} (h : ds ≠ []) : padZeros w ds ≠ [] := by
  unfold padZeros
  simp [h]

theorem isDigit_all_padZeros (w : ℕ) {ds : List Char}
    (h : ∀ c ∈ ds, c.isDigit = true) : ∀ c ∈ padZeros w ds, c.isDigit = true := by
  intro c hc
  rcases List.mem_append.mp hc with hc | hc
  · rw [List.eq_of_mem_replicate hc]; rfl
  · exact h c hc

theorem parseNatDigits_of_digits {ds : List Char} (h0 : ds ≠ [])
    (h : ∀ c ∈ ds, c.isDigit = true) : parseNatDigits ds = some (natVal ds) := by
  unfold parseNatDigits
  rw [if_neg (by simpa using h0), if_pos (by rw [List.all_eq_true]; exact h)]

/-! ## Lemmas: whitespace stripping and sign dispatch -/

theorem pyIsSpace_eq_false_of_isDigit {c : Char} (h : c.isDigit = true) :
    pyIsSpace c = false := by
  by_contra hne
  rw [Bool.not_eq_false] at hne
  unfold pyIsSpace at hne
  simp only [Bool.or_eq_true, decide_eq_true_eq] at hne
  rcases hne with ((((rfl | rfl) | rfl) | rfl) | rfl) | rfl <;> revert h <;> decide

theorem dropWhile_eq_self_of_all {p : Char → Bool} {cs : List Char}
    (h : ∀ c ∈ cs, p c = false) : cs.dropWhile p = cs := by
  cases cs with
  | nil => rfl
  | cons c t => simp [List.dropWhile, h c (by simp)]

theorem pyStripChars_of_digits {cs : List Char}
    (h : ∀ c ∈ cs, c.isDigit = true) : pyStripChars cs = cs := by
  unfold pyStripChars
  rw [dropWhile_eq_self_of_all (fun c hc => pyIsSpace_eq_false_of_isDigit (h c hc)),
    dropWhile_eq_self_of_all
      (fun c hc => pyIsSpace_eq_false_of_isDigit (h c (List.mem_reverse.mp hc))),
    List.reverse_reverse]

theorem ne_sign_of_isDigit {c : Char} (h : c.isDigit = true) : c ≠ '-' ∧ c ≠ '+' := by
  constructor <;> rintro rfl <;> simp [Char.isDigit] at h

/-! ## Lemmas: str.split on a single-character separator -/

theorem splitOnCh_of_not_mem {sep : Char} {xs : List Char}
    (h : ∀ x ∈ xs, x ≠ sep) : splitOnCh sep xs = [xs] := by
  induction xs with
  | nil => rfl
  | cons x t ih =>
    rw [splitOnCh, if_neg (by simpa using h x (by simp))]
    rw [ih (fun y hy => h y (by simp [hy]))]
    rfl

theorem splitOnCh_append {sep : Char} {a : List Char} (b : List Char)
    (h : ∀ x ∈ a, x ≠ sep) : splitOnCh sep (a ++ sep :: b) = a :: splitOnCh sep b := by
  induction a with
  | nil => simp [splitOnCh]
  | cons x t ih =>
    rw [List.cons_append, splitOnCh, if_neg (by simpa using h x (by simp))]
    rw [ih (fun y hy => h y (by simp [hy]))]
    rfl

/-! ## Lemmas: int() and float() invert the digit renderings -/

theorem ne_of_isDigit_all {sep : Char} (hsep : sep.isDigit = false) {ds : List Char}
    (h : ∀ c ∈ ds, c.isDigit = true) : ∀ c ∈ ds, c ≠ sep := by
  rintro c hc rfl
  rw [h c hc] at hsep
  cases hsep

theorem pyIntCore_of_digits {ds : List Char} (h0 : ds ≠ [])
    (h : ∀ c ∈ ds, c.isDigit = true) : pyIntCore ds = some ((natVal ds : ℤ)) := by
  cases ds with
  | nil => cases h0 rfl
  | cons c t =>
    obtain ⟨hm, hp⟩ := ne_sign_of_isDigit (h c (by simp))
    rw [pyIntCore, if_neg hm, if_neg hp, parseNatDigits_of_digits (by simp) h]
    rfl

theorem pyInt_mk_of_digits {ds : List Char} (h0 : ds ≠ [])
    (h : ∀ c ∈ ds, c.isDigit = true) :
    pyInt (String.mk ds) = some ((natVal ds : ℤ)) := by
  unfold pyInt
  rw [show (String.mk ds).data = ds from rfl, pyStripChars_of_digits h,
    pyIntCore_of_digits h0 h]

theorem parseFloatCore_of_digits {ds : List Char} (h0 : ds ≠ [])
    (h : ∀ c ∈ ds, c.isDigit = true) : parseFloatCore ds = some ((natVal ds : ℚ)) := by
  unfold parseFloatCore
  rw [splitOnCh_of_not_mem (ne_of_isDigit_all (by decide) h)]
  rw [parseFloatParts, parseNatDigits_of_digits h0 h]
  rfl

theorem pyFloat_mk_of_digits {ds : List Char} (h0 : ds ≠ [])
    (h : ∀ c ∈ ds, c.isDigit = true) :
    pyFloat (String.mk ds) = some ((natVal ds : ℚ)) := by
  unfold pyFloat
  rw [show (String.mk ds).data = ds from rfl, pyStripChars_of_digits h]
  cases ds with
  | nil => cases h0 rfl
  | cons c t =>
    obtain ⟨hm, hp⟩ := ne_sign_of_isDigit (h c (by simp))
    rw [pyFloatCore, if_neg hm, if_neg hp, parseFloatCore_of_digits (by simp) h]

theorem pyStripChars_of_all_nonspace {cs : List Char}
    (h : ∀ c ∈ cs, pyIsSpace c = false) : pyStripChars cs = cs := by
  unfold pyStripChars
  rw [dropWhile_eq_self_of_all h,
    dropWhile_eq_self_of_all (fun c hc => h c (List.mem_reverse.mp hc)),
    List.reverse_reverse]

theorem parseFloatCore_digits_dot_zeros {ds : List Char} (_h0 : ds ≠ [])
    (h : ∀ c ∈ ds, c.isDigit = true) :
    parseFloatCore (ds ++ '.' :: ['0', '0', '0']) = some ((natVal ds : ℚ)) := by
  unfold parseFloatCore
  rw [splitOnCh_append ['0', '0', '0'] (ne_of_isDigit_all (by decide) h),
    splitOnCh_of_not_mem (by decide)]
  have hds : ds.all Char.isDigit = true := by rw [List.all_eq_true]; exact h
  rw [parseFloatParts, if_neg (by simp), if_pos (by rw [hds]; rfl)]
  have hz : natVal ['0', '0', '0'] = 0 := rfl
  rw [hz]
  norm_num

theorem pyFloat_mk_digits_dot_zeros {ds : List Char} (h0 : ds ≠ [])
    (h : ∀ c ∈ ds, c.isDigit = true) :
    pyFloat (String.mk (ds ++ '.' :: ['0', '0', '0'])) = some ((natVal ds : ℚ)) := by
  have hall : ∀ c ∈ ds ++ '.' :: ['0', '0', '0'], pyIsSpace c = false := by
    intro c hc
    rcases List.mem_append.mp hc with hc | hc
    · exact pyIsSpace_eq_false_of_isDigit (h c hc)
    · simp only [List.mem_cons, List.not_mem_nil, or_false] at hc
      rcases hc with rfl | rfl | rfl | rfl <;> rfl
  unfold pyFloat
  rw [show (String.mk (ds ++ '.' :: ['0', '0', '0'])).data = ds ++ '.' :: ['0', '0', '0']
      from rfl,
    pyStripChars_of_all_nonspace hall]
  cases ds with
  | nil => cases h0 rfl
  | cons c t =>
    obtain ⟨hm, hp⟩ := ne_sign_of_isDigit (h c (by simp))
    rw [List.cons_append, pyFloatCore, if_neg hm, if_neg hp, ← List.cons_append,
      parseFloatCore_digits_dot_zeros (by simp) h]

/-! ## Lemmas: seconds_to_time on a natural number of seconds -/

theorem intPad2_natCast (k : ℕ) : intPad2 (k : ℤ) = padZeros 2 (natChars k) := by
  unfold intPad2
  rw [if_neg (not_lt.mpr (Int.natCast_nonneg k)), Int.toNat_natCast]

theorem floor_natCast_div_ofNat (s k : ℕ) :
    ⌊(s : ℚ) / (k : ℚ)⌋ = ((s / k : ℕ) : ℤ) := by
  exact_mod_cast Rat.floor_natCast_div_natCast s k

theorem pyMod_natCast (s k : ℕ) : pyMod (s : ℚ) (k : ℚ) = ((s % k : ℕ) : ℚ) := by
  unfold pyMod
  rw [floor_natCast_div_ofNat]
  have hd : k * (s / k) + s % k = s := Nat.div_add_mod s k
  have hq : ((k * (s / k) + s % k : ℕ) : ℚ) = (s : ℚ) := by rw [hd]
  push_cast at hq
  rw [Int.cast_natCast]
  linarith

theorem seconds_to_time_natCast (s : ℕ) :
    seconds_to_time (s : ℚ) =
      String.mk (padZeros 2 (natChars (s / 3600)) ++ ':' ::
        padZeros 2 (natChars (s % 3600 / 60)) ++ ':' :: padZeros 2 (natChars (s % 60))) := by
  unfold seconds_to_time
  have h36 : (3600 : ℚ) = ((3600 : ℕ) : ℚ) := by norm_num
  have h60 : (60 : ℚ) = ((60 : ℕ) : ℚ) := by norm_num
  rw [h36, h60, floor_natCast_div_ofNat, pyMod_natCast, pyMod_natCast,
    floor_natCast_div_ofNat, Int.floor_natCast, intPad2_natCast, intPad2_natCast,
    intPad2_natCast]

/-! ## Lemmas: the time-format round trip -/

theorem pySplit_colon_of_data {t : String} {A B C : List Char}
    (ht : t.data = A ++ ':' :: B ++ ':' :: C)
    (hA : ∀ c ∈ A, c ≠ ':') (hB : ∀ c ∈ B, c ≠ ':') (hC : ∀ c ∈ C, c ≠ ':') :
    pySplit ":" t = [String.mk A, String.mk B, String.mk C] := by
  unfold pySplit
  rw [show (":" : String).data = [':'] from rfl, ht,
    show pySplitChars [':'] (A ++ ':' :: B ++ ':' :: C) =
      splitOnCh ':' (A ++ ':' :: B ++ ':' :: C) from rfl]
  simp only [List.append_assoc, List.cons_append]
  rw [splitOnCh_append _ hA, splitOnCh_append _ hB, splitOnCh_of_not_mem hC]
  rfl

theorem digits_padZeros_natChars (k : ℕ) :
    ∀ c ∈ padZeros 2 (natChars k), c.isDigit = true :=
  isDigit_all_padZeros 2 (isDigit_all_natChars k)

theorem natVal_padZeros_natChars (k : ℕ) : natVal (padZeros 2 (natChars k)) = k := by
  rw [natVal_padZeros, natVal_natChars]

theorem nat_time_decomposition (s : ℕ) :
    s / 3600 * 3600 + s % 3600 / 60 * 60 + s % 60 = s := by omega

theorem time_to_seconds_seconds_to_time (s : ℕ) :
    time_to_seconds (seconds_to_time (s : ℚ)) = (s : ℚ) := by
  rw [seconds_to_time_natCast]
  have hsplit := pySplit_colon_of_data (t := String.mk (padZeros 2 (natChars (s / 3600)) ++
      ':' :: padZeros 2 (natChars (s % 3600 / 60)) ++ ':' :: padZeros 2 (natChars (s % 60))))
    rfl
    (ne_of_isDigit_all (by decide) (digits_padZeros_natChars (s / 3600)))
    (ne_of_isDigit_all (by decide) (digits_padZeros_natChars (s % 3600 / 60)))
    (ne_of_isDigit_all (by decide) (digits_padZeros_natChars (s % 60)))
  unfold time_to_seconds
  rw [hsplit]
  show combineTime (pyInt (String.mk (padZeros 2 (natChars (s / 3600)))))
      (pyInt (String.mk (padZeros 2 (natChars (s % 3600 / 60)))))
      (pyFloat (String.mk (padZeros 2 (natChars (s % 60))))) = (s : ℚ)
  rw [pyInt_mk_of_digits (padZeros_ne_nil 2 (natChars_ne_nil _)) (digits_padZeros_natChars _),
    pyInt_mk_of_digits (padZeros_ne_nil 2 (natChars_ne_nil _)) (digits_padZeros_natChars _),
    pyFloat_mk_of_digits (padZeros_ne_nil 2 (natChars_ne_nil _)) (digits_padZeros_natChars _),
    natVal_padZeros_natChars, natVal_padZeros_natChars, natVal_padZeros_natChars]
  show ((s / 3600 : ℕ) : ℤ) * 3600 + ((s % 3600 / 60 : ℕ) : ℤ) * 60 + ((s % 60 : ℕ) : ℚ)
      = (s : ℚ)
  have hnat := nat_time_decomposition s
  have hq : ((s / 3600 * 3600 + s % 3600 / 60 * 60 + s % 60 : ℕ) : ℚ) = (s : ℚ) := by
    rw [hnat]
  rw [Int.cast_natCast, Int.cast_natCast]
  push_cast at hq
  linarith

theorem time_to_seconds_seconds_to_time_frac (s : ℕ) :
    time_to_seconds (seconds_to_time (s : ℚ) ++ ".000") = (s : ℚ) := by
  rw [seconds_to_time_natCast]
  have hdata : (String.mk (padZeros 2 (natChars (s / 3600)) ++
      ':' :: padZeros 2 (natChars (s % 3600 / 60)) ++ ':' :: padZeros 2 (natChars (s % 60)))
      ++ ".000").data =
      padZeros 2 (natChars (s / 3600)) ++ ':' :: padZeros 2 (natChars (s % 3600 / 60)) ++
        ':' :: (padZeros 2 (natChars (s % 60)) ++ '.' :: ['0', '0', '0']) := by
    rw [String.data_append]
    simp
  have hC : ∀ c ∈ padZeros 2 (natChars (s % 60)) ++ '.' :: ['0', '0', '0'], c ≠ ':' := by
    intro c hc
    rcases List.mem_append.mp hc with hc | hc
    · exact ne_of_isDigit_all (by decide) (digits_padZeros_natChars (s % 60)) c hc
    · simp only [List.mem_cons, List.not_mem_nil, or_false] at hc
      rcases hc with rfl | rfl | rfl | rfl <;> decide
  have hsplit := pySplit_colon_of_data hdata
    (ne_of_isDigit_all (by decide) (digits_padZeros_natChars (s / 3600)))
    (ne_of_isDigit_all (by decide) (digits_padZeros_natChars (s % 3600 / 60)))
    hC
  unfold time_to_seconds
  rw [hsplit]
  show combineTime (pyInt (String.mk (padZeros 2 (natChars (s / 3600)))))
      (pyInt (String.mk (padZeros 2 (natChars (s % 3600 / 60)))))
      (pyFloat (String.mk (padZeros 2 (natChars (s % 60)) ++ '.' :: ['0', '0', '0'])))
      = (s : ℚ)
  rw [pyInt_mk_of_digits (padZeros_ne_nil 2 (natChars_ne_nil _)) (digits_padZeros_natChars _),
    pyInt_mk_of_digits (padZeros_ne_nil 2 (natChars_ne_nil _)) (digits_padZeros_natChars _),
    pyFloat_mk_digits_dot_zeros (padZeros_ne_nil 2 (natChars_ne_nil _))
      (digits_padZeros_natChars _),
    natVal_padZeros_natChars, natVal_padZeros_natChars, natVal_padZeros_natChars]
  show ((s / 3600 : ℕ) : ℤ) * 3600 + ((s % 3600 / 60 : ℕ) : ℤ) * 60 + ((s % 60 : ℕ) : ℚ)
      = (s : ℚ)
  have hnat := nat_time_decomposition s
  have hq : ((s / 3600 * 3600 + s % 3600 / 60 * 60 + s % 60 : ℕ) : ℚ) = (s : ℚ) := by
    rw [hnat]
  rw [Int.cast_natCast, Int.cast_natCast]
  push_cast at hq
  linarith

/-! ## Lemmas: the run loop -/

theorem isRunningAt_mono {cancelAt : Option ℕ} {j j' : ℕ} (h : j ≤ j')
    (h' : isRunningAt cancelAt j' = true) : isRunningAt cancelAt j = true := by
  cases cancelAt with
  | none => rfl
  | some k => simp only [isRunningAt, decide_eq_true_eq] at h' ⊢; omega

theorem runSegments_break (cfg : WorkerCfg) (n i : ℕ) (rest : List ℕ)
    (h : isRunningAt cfg.cancelAt i = false) :
    runSegments cfg n (i :: rest) = ([], []) := by
  rw [runSegments, if_neg (by rw [h]; exact Bool.false_ne_true)]

theorem runSegments_cons_run (cfg : WorkerCfg) (n i : ℕ) (rest : List ℕ)
    (h : isRunningAt cfg.cancelAt i = true) :
    runSegments cfg n (i :: rest) =
      (windowEvents cfg n i ++ (runSegments cfg n rest).1,
       (windowOutcome cfg i).toList ++ (runSegments cfg n rest).2) := by
  rw [runSegments, if_pos h]

theorem runSegments_all_run (cfg : WorkerCfg) (n : ℕ) (l : List ℕ)
    (h : ∀ i ∈ l, isRunningAt cfg.cancelAt i = true) :
    runSegments cfg n l =
      ((l.map (windowEvents cfg n)).flatten, l.filterMap (windowOutcome cfg)) := by
  induction l with
  | nil => rfl
  | cons i rest ih =>
    rw [runSegments_cons_run cfg n i rest (h i (by simp)),
      ih (fun j hj => h j (by simp [hj]))]
    cases hw : windowOutcome cfg i <;>
      simp [List.filterMap_cons, hw]

theorem runSegments_append_run (cfg : WorkerCfg) (n : ℕ) (l₁ l₂ : List ℕ)
    (h : ∀ i ∈ l₁, isRunningAt cfg.cancelAt i = true) :
    runSegments cfg n (l₁ ++ l₂) =
      ((l₁.map (windowEvents cfg n)).flatten ++ (runSegments cfg n l₂).1,
       l₁.filterMap (windowOutcome cfg) ++ (runSegments cfg n l₂).2) := by
  induction l₁ with
  | nil => simp
  | cons i rest ih =>
    rw [List.cons_append, runSegments_cons_run cfg n i (rest ++ l₂) (h i (by simp)),
      ih (fun j hj => h j (by simp [hj]))]
    cases hw : windowOutcome cfg i <;>
      simp [List.filterMap_cons, hw]

theorem progressEvents_append (a b : List Event) :
    progressEvents (a ++ b) = progressEvents a ++ progressEvents b :=
  List.filterMap_append a b _

theorem finishedEvents_append (a b : List Event) :
    finishedEvents (a ++ b) = finishedEvents a ++ finishedEvents b :=
  List.filterMap_append a b _

theorem segmentCompletedEvents_append (a b : List Event) :
    segmentCompletedEvents (a ++ b) = segmentCompletedEvents a ++ segmentCompletedEvents b :=
  List.filterMap_append a b _

theorem progressEvents_windowEvents (cfg : WorkerCfg) (n i : ℕ) :
    progressEvents (windowEvents cfg n i) =
      (windowOutcome cfg i).toList.map
        (fun o => ⌊(o.1 : ℚ) / (n : ℚ) * 100⌋) := by
  unfold windowEvents windowOutcome
  by_cases hd : windowLen cfg.duration cfg.segmentDuration i ≤ 1
  · rw [if_pos hd, if_pos hd]; rfl
  · rw [if_neg hd, if_neg hd]
    cases h : cfg.encodeOk i <;> simp [progressEvents, h]

theorem finishedEvents_windowEvents (cfg : WorkerCfg) (n i : ℕ) :
    finishedEvents (windowEvents cfg n i) = [] := by
  unfold windowEvents
  by_cases hd : windowLen cfg.duration cfg.segmentDuration i ≤ 1
  · rw [if_pos hd]; rfl
  · rw [if_neg hd]
    cases h : cfg.encodeOk i <;> simp [finishedEvents, h]

theorem segmentCompletedEvents_windowEvents (cfg : WorkerCfg) (n i : ℕ) :
    segmentCompletedEvents (windowEvents cfg n i) =
      ((windowOutcome cfg i).toList.filter (fun o => o.2)).map
        (fun o => (outputPath cfg o.1, o.1)) := by
  unfold windowEvents windowOutcome
  by_cases hd : windowLen cfg.duration cfg.segmentDuration i ≤ 1
  · rw [if_pos hd, if_pos hd]; rfl
  · rw [if_neg hd, if_neg hd]
    cases h : cfg.encodeOk i <;> simp [segmentCompletedEvents, h]

theorem progressEvents_runSegments (cfg : WorkerCfg) (n : ℕ) (l : List ℕ) :
    progressEvents (runSegments cfg n l).1 =
      (runSegments cfg n l).2.map (fun o => ⌊(o.1 : ℚ) / (n : ℚ) * 100⌋) := by
  induction l with
  | nil => rfl
  | cons i rest ih =>
    by_cases h : isRunningAt cfg.cancelAt i = true
    · rw [runSegments_cons_run cfg n i rest h]
      simp only [progressEvents_append, progressEvents_windowEvents, List.map_append, ih]
    · rw [runSegments_break cfg n i rest (by revert h; cases isRunningAt cfg.cancelAt i <;>
        simp)]
      rfl

theorem finishedEvents_runSegments (cfg : WorkerCfg) (n : ℕ) (l : List ℕ) :
    finishedEvents (runSegments cfg n l).1 = [] := by
  induction l with
  | nil => rfl
  | cons i rest ih =>
    by_cases h : isRunningAt cfg.cancelAt i = true
    · rw [runSegments_cons_run cfg n i rest h]
      simp only [finishedEvents_append, finishedEvents_windowEvents, ih, List.append_nil]
    · rw [runSegments_break cfg n i rest (by revert h; cases isRunningAt cfg.cancelAt i <;>
        simp)]
      rfl

theorem segmentCompletedEvents_runSegments (cfg : WorkerCfg) (n : ℕ) (l : List ℕ) :
    segmentCompletedEvents (runSegments cfg n l).1 =
      ((runSegments cfg n l).2.filter (fun o => o.2)).map
        (fun o => (outputPath cfg o.1, o.1)) := by
  induction l with
  | nil => rfl
  | cons i rest ih =>
    by_cases h : isRunningAt cfg.cancelAt i = true
    · rw [runSegments_cons_run cfg n i rest h]
      simp only [segmentCompletedEvents_append, segmentCompletedEvents_windowEvents,
        List.filter_append, List.map_append, ih]
    · rw [runSegments_break cfg n i rest (by revert h; cases isRunningAt cfg.cancelAt i <;>
        simp)]
      rfl

/-! ## Lemmas: unfolding the whole run -/

theorem runWorker_eq_of_running (cfg : WorkerCfg) (hd : 0 < cfg.duration)
    (hL : cfg.segmentDuration ≠ 0) (hmk : cfg.mkdirOk = true) :
    runWorker cfg =
      ⟨preEvents cfg ++ infoLogEvents cfg (nSeg cfg.duration cfg.segmentDuration) ++
        (runSegments cfg (nSeg cfg.duration cfg.segmentDuration)
          (List.range (nSeg cfg.duration cfg.segmentDuration))).1 ++
        finalEvents cfg (nSeg cfg.duration cfg.segmentDuration)
          (((runSegments cfg (nSeg cfg.duration cfg.segmentDuration)
            (List.range (nSeg cfg.duration cfg.segmentDuration))).2.filter
              (fun o => o.2)).length),
       (runSegments cfg (nSeg cfg.duration cfg.segmentDuration)
         (List.range (nSeg cfg.duration cfg.segmentDuration))).2⟩ := by
  unfold runWorker
  rw [if_neg (not_le.mpr hd), if_neg hL, if_neg (by rw [hmk]; exact fun h => Bool.noConfusion h)]

theorem finishedEvents_preEvents (cfg : WorkerCfg) : finishedEvents (preEvents cfg) = [] := rfl

theorem finishedEvents_infoLogEvents (cfg : WorkerCfg) (n : ℕ) :
    finishedEvents (infoLogEvents cfg n) = [] := rfl

theorem finishedEvents_finalEvents (cfg : WorkerCfg) (n successfulSegments : ℕ) :
    finishedEvents (finalEvents cfg n successfulSegments) =
      (if isRunningAt cfg.cancelAt n then
        if 0 < successfulSegments then
          [(true, "Successfully split video into " ++ natStr successfulSegments ++ " segments")]
        else [(false, "No segments were created successfully")]
      else [(false, "Operation cancelled by user")]) := by
  unfold finalEvents
  by_cases h : isRunningAt cfg.cancelAt n = true
  · rw [if_pos h, if_pos h]
    by_cases hs : 0 < successfulSegments
    · rw [if_pos hs, if_pos hs]; rfl
    · rw [if_neg hs, if_neg hs]; rfl
  · rw [if_neg h, if_neg h]; rfl

theorem finishedEvents_runWorker_of_running (cfg : WorkerCfg) (hd : 0 < cfg.duration)
    (hL : cfg.segmentDuration ≠ 0) (hmk : cfg.mkdirOk = true) :
    finishedEvents (runWorker cfg).events =
      finishedEvents (finalEvents cfg (nSeg cfg.duration cfg.segmentDuration)
        (((runWorker cfg).outcomes.filter (fun o => o.2)).length)) := by
  rw [runWorker_eq_of_running cfg hd hL hmk]
  simp only [finishedEvents_append, finishedEvents_preEvents, finishedEvents_infoLogEvents,
    finishedEvents_runSegments, List.nil_append, List.append_nil]

/-! ## Lemmas: the ceiling-division plan bounds and closed form -/

theorem nSeg_cast {duration : ℚ} {segmentDuration : ℕ} (hd : 0 < duration)
    (hL : segmentDuration ≠ 0) :
    ((nSeg duration segmentDuration : ℕ) : ℤ) = ⌈duration / (segmentDuration : ℚ)⌉ := by
  unfold nSeg
  have hpos : (0 : ℚ) < (segmentDuration : ℚ) := by
    exact_mod_cast Nat.pos_of_ne_zero hL
  exact Int.toNat_of_nonneg (le_of_lt (Int.ceil_pos.mpr (div_pos hd hpos)))

theorem nSeg_pos {duration : ℚ} {segmentDuration : ℕ} (hd : 0 < duration)
    (hL : segmentDuration ≠ 0) : 0 < nSeg duration segmentDuration := by
  have hpos : (0 : ℚ) < (segmentDuration : ℚ) := by
    exact_mod_cast Nat.pos_of_ne_zero hL
  have := Int.ceil_pos.mpr (div_pos hd hpos)
  unfold nSeg
  omega

theorem duration_le_nSeg_mul {duration : ℚ} {segmentDuration : ℕ} (hd : 0 < duration)
    (hL : segmentDuration ≠ 0) :
    duration ≤ ((nSeg duration segmentDuration : ℕ) : ℚ) * (segmentDuration : ℚ) := by
  have hpos : (0 : ℚ) < (segmentDuration : ℚ) := by
    exact_mod_cast Nat.pos_of_ne_zero hL
  have hceil : duration / (segmentDuration : ℚ) ≤ (⌈duration / (segmentDuration : ℚ)⌉ : ℚ) :=
    Int.le_ceil _
  have hcast : ((nSeg duration segmentDuration : ℕ) : ℚ) =
      ((⌈duration / (segmentDuration : ℚ)⌉ : ℤ) : ℚ) := by
    exact_mod_cast nSeg_cast hd hL
  rw [hcast]
  calc duration = duration / (segmentDuration : ℚ) * (segmentDuration : ℚ) := by
        field_simp
    _ ≤ ((⌈duration / (segmentDuration : ℚ)⌉ : ℤ) : ℚ) * (segmentDuration : ℚ) := by
        exact mul_le_mul_of_nonneg_right hceil (le_of_lt hpos)

theorem pred_nSeg_mul_lt_duration {duration : ℚ} {segmentDuration : ℕ} (hd : 0 < duration)
    (hL : segmentDuration ≠ 0) :
    ((nSeg duration segmentDuration - 1 : ℕ) : ℚ) * (segmentDuration : ℚ) < duration := by
  have hpos : (0 : ℚ) < (segmentDuration : ℚ) := by
    exact_mod_cast Nat.pos_of_ne_zero hL
  have hceil : ((⌈duration / (segmentDuration : ℚ)⌉ : ℤ) : ℚ) - 1 <
      duration / (segmentDuration : ℚ) := by
    have := Int.ceil_lt_add_one (duration / (segmentDuration : ℚ))
    push_cast at this ⊢
    linarith
  have hn := nSeg_pos hd hL
  have hcast : ((nSeg duration segmentDuration - 1 : ℕ) : ℚ) =
      ((⌈duration / (segmentDuration : ℚ)⌉ : ℤ) : ℚ) - 1 := by
    have h1 : ((nSeg duration segmentDuration - 1 : ℕ) : ℤ) =
        ⌈duration / (segmentDuration : ℚ)⌉ - 1 := by
      rw [← nSeg_cast hd hL]
      omega
    exact_mod_cast congrArg (fun (z : ℤ) => (z : ℚ)) h1
  rw [hcast]
  calc (((⌈duration / (segmentDuration : ℚ)⌉ : ℤ) : ℚ) - 1) * (segmentDuration : ℚ)
      < duration / (segmentDuration : ℚ) * (segmentDuration : ℚ) := by
        exact mul_lt_mul_of_pos_right hceil hpos
    _ = duration := by field_simp

theorem windowStart_add (L : ℕ) (i : ℕ) :
    windowStart L i + (L : ℚ) = ((i + 1 : ℕ) : ℚ) * (L : ℚ) := by
  unfold windowStart
  push_cast
  ring

theorem windowEnd_of_le {D : ℚ} {L : ℕ} {i : ℕ} (h : ((i + 1 : ℕ) : ℚ) * (L : ℚ) ≤ D) :
    windowEnd D L i = windowStart L i + (L : ℚ) := by
  unfold windowEnd
  rw [min_eq_left (by rw [windowStart_add]; exact h)]

theorem windowLen_of_le {D : ℚ} {L : ℕ} {i : ℕ} (h : ((i + 1 : ℕ) : ℚ) * (L : ℚ) ≤ D) :
    windowLen D L i = (L : ℚ) := by
  unfold windowLen
  rw [windowEnd_of_le h]
  ring

theorem windowEnd_last {D : ℚ} {L : ℕ} (hd : 0 < D) (hL : L ≠ 0) :
    windowEnd D L (nSeg D L - 1) = D := by
  unfold windowEnd
  refine min_eq_right ?_
  rw [windowStart_add]
  have hn := nSeg_pos hd hL
  have h1 : (nSeg D L - 1 + 1 : ℕ) = nSeg D L := by omega
  rw [h1]
  exact duration_le_nSeg_mul hd hL

theorem windowLen_last {D : ℚ} {L : ℕ} (hd : 0 < D) (hL : L ≠ 0) :
    windowLen D L (nSeg D L - 1) = D - ((nSeg D L - 1 : ℕ) : ℚ) * (L : ℚ) := by
  unfold windowLen
  rw [windowEnd_last hd hL]
  unfold windowStart
  ring

theorem filterMap_congr_some {α β : Type} (l : List α) (f : α → Option β) (g : α → β)
    (h : ∀ a ∈ l, f a = some (g a)) : l.filterMap f = l.map g := by
  induction l with
  | nil => rfl
  | cons a t ih =>
    rw [List.filterMap_cons, h a (by simp), List.map_cons, ih (fun b hb => h b (by simp [hb]))]

theorem segPlan_closed (D : ℚ) (L : ℕ) (hd : 0 < D) (hL2 : 2 ≤ L) :
    segPlan D L =
      (List.range (nSeg D L - 1)).map
        (fun (i : ℕ) => ((i + 1 : ℕ), windowStart L i, windowStart L i + (L : ℚ)))
      ++ (if windowLen D L (nSeg D L - 1) ≤ 1 then []
          else [(nSeg D L, windowStart L (nSeg D L - 1), D)]) := by
  have hL0 : L ≠ 0 := by omega
  have hn := nSeg_pos hd hL0
  have hm : nSeg D L = (nSeg D L - 1) + 1 := by omega
  have hr : List.range (nSeg D L) = List.range (nSeg D L - 1) ++ [nSeg D L - 1] := by
    conv_lhs => rw [hm]
    simp [List.range_succ]
  unfold segPlan
  rw [hr, List.filterMap_append]
  congr 1
  · refine filterMap_congr_some _ _ _ ?_
    intro i hi
    rw [List.mem_range] at hi
    have hle : ((i + 1 : ℕ) : ℚ) * (L : ℚ) ≤ D := by
      have h1 : ((i + 1 : ℕ) : ℚ) ≤ ((nSeg D L - 1 : ℕ) : ℚ) := by
        exact_mod_cast Nat.succ_le_of_lt hi
      have h2 : ((nSeg D L - 1 : ℕ) : ℚ) * (L : ℚ) < D := pred_nSeg_mul_lt_duration hd hL0
      have h3 : ((i + 1 : ℕ) : ℚ) * (L : ℚ) ≤ ((nSeg D L - 1 : ℕ) : ℚ) * (L : ℚ) := by
        exact mul_le_mul_of_nonneg_right h1 (by positivity)
      linarith
    have hgt : ¬ windowLen D L i ≤ 1 := by
      rw [windowLen_of_le hle]
      have : (2 : ℚ) ≤ (L : ℚ) := by exact_mod_cast hL2
      linarith
    rw [if_neg hgt, windowEnd_of_le hle]
  · rw [List.filterMap_cons]
    by_cases hlen : windowLen D L (nSeg D L - 1) ≤ 1
    · rw [if_pos hlen, if_pos hlen]
      rfl
    · rw [if_neg hlen, if_neg hlen, windowEnd_last hd hL0, ← hm]
      rfl

theorem segPlan_length (D : ℚ) (L : ℕ) (hd : 0 < D) (hL2 : 2 ≤ L) :
    (segPlan D L).length =
      if windowLen D L (nSeg D L - 1) ≤ 1 then nSeg D L - 1 else nSeg D L := by
  rw [segPlan_closed D L hd hL2, List.length_append, List.length_map, List.length_range]
  by_cases hlen : windowLen D L (nSeg D L - 1) ≤ 1
  · rw [if_pos hlen, if_pos hlen]
    rfl
  · rw [if_neg hlen, if_neg hlen]
    have := nSeg_pos hd (by omega : L ≠ 0)
    simp only [List.length_singleton]
    omega

/-! ## Lemmas: the attempted windows are exactly the plan -/

theorem filterMap_ext_mem {α β : Type} {l : List α} {f g : α → Option β}
    (h : ∀ a ∈ l, f a = g a) : l.filterMap f = l.filterMap g := by
  induction l with
  | nil => rfl
  | cons a t ih =>
    rw [List.filterMap_cons, List.filterMap_cons, h a (by simp),
      ih (fun b hb => h b (by simp [hb]))]

theorem runWorker_outcomes_eq_segPlan (cfg : WorkerCfg) (hd : 0 < cfg.duration)
    (hL : cfg.segmentDuration ≠ 0) (hmk : cfg.mkdirOk = true)
    (hrun : isRunningAt cfg.cancelAt (nSeg cfg.duration cfg.segmentDuration) = true) :
    (runWorker cfg).outcomes =
      (segPlan cfg.duration cfg.segmentDuration).map
        (fun w => (w.1, cfg.encodeOk (w.1 - 1))) := by
  rw [runWorker_eq_of_running cfg hd hL hmk]
  show (runSegments cfg (nSeg cfg.duration cfg.segmentDuration)
    (List.range (nSeg cfg.duration cfg.segmentDuration))).2 = _
  rw [runSegments_all_run cfg _ _
    (fun i hi => isRunningAt_mono (le_of_lt (List.mem_range.mp hi)) hrun)]
  show List.filterMap (windowOutcome cfg) _ = _
  unfold segPlan
  rw [List.map_filterMap]
  refine filterMap_ext_mem ?_
  intro i _
  unfold windowOutcome
  by_cases hlen : windowLen cfg.duration cfg.segmentDuration i ≤ 1
  · rw [if_pos hlen, if_pos hlen]
    rfl
  · rw [if_neg hlen, if_neg hlen]
    simp

/-! ## Lemmas: geometry of the plan (for the coverage claim) -/

theorem windowStart_succ (L : ℕ) (i : ℕ) :
    windowStart L (i + 1) = windowStart L i + (L : ℚ) := by
  unfold windowStart
  push_cast
  ring

theorem windowStart_nonneg (L : ℕ) (i : ℕ) : (0 : ℚ) ≤ windowStart L i := by
  unfold windowStart
  positivity

theorem windowStart_le_of_le (L : ℕ) {i j : ℕ} (h : i ≤ j) :
    windowStart L i ≤ windowStart L j := by
  unfold windowStart
  have : ((i : ℕ) : ℚ) ≤ ((j : ℕ) : ℚ) := by exact_mod_cast h
  exact mul_le_mul_of_nonneg_right this (by positivity)

theorem windowStart_lt_of_lt {L : ℕ} (hL : L ≠ 0) {i j : ℕ} (h : i < j) :
    windowStart L i < windowStart L j := by
  unfold windowStart
  have hc : ((i : ℕ) : ℚ) < ((j : ℕ) : ℚ) := by exact_mod_cast h
  have hpos : (0 : ℚ) < (L : ℚ) := by exact_mod_cast Nat.pos_of_ne_zero hL
  exact mul_lt_mul_of_pos_right hc hpos

theorem iUnion_list_append {α : Type} (l₁ l₂ : List α) (f : α → Set ℚ) :
    (⋃ w ∈ l₁ ++ l₂, f w) = (⋃ w ∈ l₁, f w) ∪ ⋃ w ∈ l₂, f w := by
  ext x
  simp only [Set.mem_iUnion, Set.mem_union, List.mem_append]
  constructor
  · rintro ⟨w, hw | hw, hx⟩
    · exact Or.inl ⟨w, hw, hx⟩
    · exact Or.inr ⟨w, hw, hx⟩
  · rintro (⟨w, hw, hx⟩ | ⟨w, hw, hx⟩)
    · exact ⟨w, Or.inl hw, hx⟩
    · exact ⟨w, Or.inr hw, hx⟩

theorem iUnion_full_windows (L : ℕ) (m : ℕ) :
    (⋃ w ∈ (List.range m).map
        (fun (i : ℕ) => ((i + 1 : ℕ), windowStart L i, windowStart L i + (L : ℚ))),
      Set.Ico w.2.1 w.2.2) = Set.Ico (0 : ℚ) (windowStart L m) := by
  induction m with
  | zero =>
    have h0 : windowStart L 0 = 0 := by unfold windowStart; push_cast; ring
    simp [h0]
  | succ m ih =>
    rw [show List.range (m + 1) = List.range m ++ [m] by simp [List.range_succ],
      List.map_append, iUnion_list_append, ih]
    have hone : (⋃ w ∈ [m].map
        (fun (i : ℕ) => ((i + 1 : ℕ), windowStart L i, windowStart L i + (L : ℚ))),
        Set.Ico w.2.1 w.2.2) = Set.Ico (windowStart L m) (windowStart L m + (L : ℚ)) := by
      simp
    rw [hone, windowStart_succ,
      Set.Ico_union_Ico_eq_Ico (windowStart_nonneg L m)
        (le_add_of_nonneg_right (by positivity))]

theorem segPlan_pairwise_nonoverlap (D : ℚ) (L : ℕ) (hd : 0 < D) (hL2 : 2 ≤ L) :
    List.Pairwise (fun a b => a.2.2 ≤ b.2.1) (segPlan D L) := by
  have hL0 : L ≠ 0 := by omega
  rw [segPlan_closed D L hd hL2]
  rw [List.pairwise_append]
  refine ⟨?_, ?_, ?_⟩
  · rw [List.pairwise_map]
    refine (List.pairwise_lt_range _).imp ?_
    intro i j hij
    show windowStart L i + (L : ℚ) ≤ windowStart L j
    rw [← windowStart_succ]
    exact windowStart_le_of_le L hij
  · by_cases hlen : windowLen D L (nSeg D L - 1) ≤ 1
    · rw [if_pos hlen]; exact List.Pairwise.nil
    · rw [if_neg hlen]; simp
  · intro a ha b hb
    by_cases hlen : windowLen D L (nSeg D L - 1) ≤ 1
    · rw [if_pos hlen] at hb; simp at hb
    · rw [if_neg hlen] at hb
      simp only [List.mem_singleton] at hb
      subst hb
      simp only [List.mem_map, List.mem_range] at ha
      obtain ⟨i, hi, rfl⟩ := ha
      show windowStart L i + (L : ℚ) ≤ windowStart L (nSeg D L - 1)
      rw [← windowStart_succ]
      exact windowStart_le_of_le L hi

theorem segPlan_pairwise_start_lt (D : ℚ) (L : ℕ) (hd : 0 < D) (hL2 : 2 ≤ L) :
    List.Pairwise (fun a b => a.2.1 < b.2.1) (segPlan D L) := by
  have hL0 : L ≠ 0 := by omega
  rw [segPlan_closed D L hd hL2]
  rw [List.pairwise_append]
  refine ⟨?_, ?_, ?_⟩
  · rw [List.pairwise_map]
    refine (List.pairwise_lt_range _).imp ?_
    intro i j hij
    exact windowStart_lt_of_lt hL0 hij
  · by_cases hlen : windowLen D L (nSeg D L - 1) ≤ 1
    · rw [if_pos hlen]; exact List.Pairwise.nil
    · rw [if_neg hlen]; simp
  · intro a ha b hb
    by_cases hlen : windowLen D L (nSeg D L - 1) ≤ 1
    · rw [if_pos hlen] at hb; simp at hb
    · rw [if_neg hlen] at hb
      simp only [List.mem_singleton] at hb
      subst hb
      simp only [List.mem_map, List.mem_range] at ha
      obtain ⟨i, hi, rfl⟩ := ha
      exact windowStart_lt_of_lt hL0 hi

theorem segPlan_cover (D : ℚ) (L : ℕ) (hd : 0 < D) (hL2 : 2 ≤ L) :
    ∃ E : ℚ, E ≤ D ∧ D - E ≤ 1 ∧
      (⋃ w ∈ segPlan D L, Set.Ico w.2.1 w.2.2) = Set.Ico (0 : ℚ) E := by
  have hL0 : L ≠ 0 := by omega
  have hlt : windowStart L (nSeg D L - 1) < D := by
    have := pred_nSeg_mul_lt_duration hd hL0
    unfold windowStart
    exact this
  rw [segPlan_closed D L hd hL2, iUnion_list_append, iUnion_full_windows]
  by_cases hlen : windowLen D L (nSeg D L - 1) ≤ 1
  · refine ⟨windowStart L (nSeg D L - 1), le_of_lt hlt, ?_, ?_⟩
    · rw [windowLen_last hd hL0] at hlen
      unfold windowStart
      exact hlen
    · rw [if_pos hlen]
      simp
  · refine ⟨D, le_refl D, by linarith, ?_⟩
    rw [if_neg hlen]
    have hone : (⋃ w ∈ [((nSeg D L : ℕ), windowStart L (nSeg D L - 1), D)],
        Set.Ico w.2.1 w.2.2) = Set.Ico (windowStart L (nSeg D L - 1)) D := by simp
    rw [hone, Set.Ico_union_Ico_eq_Ico (windowStart_nonneg L _) (le_of_lt hlt)]

/-! ## Claim theorems -/

/-- Claim C1, amended: the original claim admits every segmentLength L ≥ 1,
but for L = 1 every full window has length exactly 1 second and is dropped
by the run loop, so the plan can be empty (see the counterexample).  For
every totalDuration D > 0 and integer segmentLength L ≥ 2, the segment plan
(the windows actually attempted by the run loop) contains exactly ceil(D/L)
windows or ceil(D/L) - 1 windows, the shorter count occurring exactly when
the final window's length D - (ceil(D/L) - 1) * L is at most 1 second; and
an uncancelled run with a working output directory attempts exactly the
plan's windows. -/
theorem claim_C1 (D : ℚ) (L : ℕ) (hd : 0 < D) (hL2 : 2 ≤ L) :
    ((segPlan D L).length = nSeg D L ∨ (segPlan D L).length = nSeg D L - 1)
    ∧ ((segPlan D L).length = nSeg D L - 1 ↔
        D - ((nSeg D L - 1 : ℕ) : ℚ) * (L : ℚ) ≤ 1)
    ∧ ∀ (cfg : WorkerCfg), cfg.duration = D → cfg.segmentDuration = L →
        cfg.mkdirOk = true → cfg.cancelAt = none →
        (runWorker cfg).outcomes.length = (segPlan D L).length := by
  have hL0 : L ≠ 0 := by omega
  have hn := nSeg_pos hd hL0
  have hlen := segPlan_length D L hd hL2
  have hlast := windowLen_last hd hL0
  refine ⟨?_, ?_, ?_⟩
  · by_cases hcond : windowLen D L (nSeg D L - 1) ≤ 1
    · right; rw [hlen, if_pos hcond]
    · left; rw [hlen, if_neg hcond]
  · constructor
    · intro hshort
      by_cases hcond : windowLen D L (nSeg D L - 1) ≤ 1
      · rw [hlast] at hcond; exact hcond
      · rw [hlen, if_neg hcond] at hshort
        omega
    · intro hfin
      rw [hlen, if_pos (by rw [hlast]; exact hfin)]
  · intro cfg h1 h2 h3 h4
    have hrun : isRunningAt cfg.cancelAt (nSeg cfg.duration cfg.segmentDuration) = true := by
      rw [h4]; rfl
    rw [runWorker_outcomes_eq_segPlan cfg (by rw [h1]; exact hd) (by rw [h2]; exact hL0)
      h3 hrun, List.length_map, h1, h2]

/-- Claim C1 counterexample: at totalDuration 3 and segmentLength 1
(allowed by the claim as stated) the run loop drops every window, so the
plan is empty, while ceil(3/1) = 3: the plan has neither 3 nor 2 windows. -/
theorem claim_C1_counterexample :
    ¬ ((((segPlan 3 1).length = nSeg 3 1 ∨ (segPlan 3 1).length = nSeg 3 1 - 1)
      ∧ ((segPlan 3 1).length = nSeg 3 1 - 1 ↔
          (3 : ℚ) - ((nSeg 3 1 - 1 : ℕ) : ℚ) * ((1 : ℕ) : ℚ) ≤ 1))) := by
  with_unfolding_all decide

/-- Claim C1 witness: the amended claim applied to the spec's scenario
totalDuration 125, segmentLength 60 (ceil = 3, final window length 5). -/
theorem claim_C1_witness :
    (0 : ℚ) < 125 ∧ 2 ≤ 60 ∧
      (((segPlan 125 60).length = nSeg 125 60 ∨ (segPlan 125 60).length = nSeg 125 60 - 1)
       ∧ ((segPlan 125 60).length = nSeg 125 60 - 1 ↔
           (125 : ℚ) - ((nSeg 125 60 - 1 : ℕ) : ℚ) * ((60 : ℕ) : ℚ) ≤ 1)
       ∧ ∀ (cfg : WorkerCfg), cfg.duration = 125 → cfg.segmentDuration = 60 →
           cfg.mkdirOk = true → cfg.cancelAt = none →
           (runWorker cfg).outcomes.length = (segPlan 125 60).length) :=
  ⟨by norm_num, by norm_num, claim_C1 125 60 (by norm_num) (by norm_num)⟩

/-- Claim C2, amended: the original claim admits every segmentLength L ≥ 1,
but for L = 1 the plan is empty while the duration can exceed 1 second, so
the union cannot be all of the timeline minus a span of at most 1 second
(see the counterexample).  For every totalDuration D > 0 and integer
segmentLength L ≥ 2, the emitted windows are pairwise non-overlapping,
strictly increasing in start time, and the union of their half-open
intervals is an initial segment of the timeline missing at most a trailing
span of 1 second. -/
theorem claim_C2 (D : ℚ) (L : ℕ) (hd : 0 < D) (hL2 : 2 ≤ L) :
    List.Pairwise (fun a b => a.2.2 ≤ b.2.1) (segPlan D L)
    ∧ List.Pairwise (fun a b => a.2.1 < b.2.1) (segPlan D L)
    ∧ ∃ E : ℚ, E ≤ D ∧ D - E ≤ 1 ∧
        (⋃ w ∈ segPlan D L, Set.Ico w.2.1 w.2.2) = Set.Ico (0 : ℚ) E :=
  ⟨segPlan_pairwise_nonoverlap D L hd hL2, segPlan_pairwise_start_lt D L hd hL2,
    segPlan_cover D L hd hL2⟩

/-- Claim C2 counterexample: at totalDuration 5 and segmentLength 1
(allowed by the claim as stated) the plan is empty, so the union of its
windows is empty and misses 5 seconds of the timeline, not at most 1. -/
theorem claim_C2_counterexample :
    ¬ (List.Pairwise (fun a b => a.2.2 ≤ b.2.1) (segPlan 5 1)
      ∧ List.Pairwise (fun a b => a.2.1 < b.2.1) (segPlan 5 1)
      ∧ ∃ E : ℚ, E ≤ 5 ∧ (5 : ℚ) - E ≤ 1 ∧
          (⋃ w ∈ segPlan 5 1, Set.Ico w.2.1 w.2.2) = Set.Ico (0 : ℚ) E) := by
  rintro ⟨-, -, E, hE, hE1, hU⟩
  have hplan : segPlan 5 1 = [] := by with_unfolding_all decide
  rw [hplan] at hU
  simp only [List.not_mem_nil, Set.iUnion_of_empty, Set.iUnion_empty] at hU
  have hE0 : E ≤ 0 := by
    by_contra hpos
    push_neg at hpos
    have hmem : (0 : ℚ) ∈ Set.Ico (0 : ℚ) E := ⟨le_refl 0, hpos⟩
    rw [← hU] at hmem
    exact hmem
  linarith

/-- Claim C2 witness: the amended claim applied to the spec's scenario
totalDuration 121, segmentLength 60 (the 1-second final window is dropped). -/
theorem claim_C2_witness :
    (0 : ℚ) < 121 ∧ 2 ≤ 60 ∧
      (List.Pairwise (fun a b => a.2.2 ≤ b.2.1) (segPlan 121 60)
       ∧ List.Pairwise (fun a b => a.2.1 < b.2.1) (segPlan 121 60)
       ∧ ∃ E : ℚ, E ≤ 121 ∧ (121 : ℚ) - E ≤ 1 ∧
           (⋃ w ∈ segPlan 121 60, Set.Ico w.2.1 w.2.2) = Set.Ico (0 : ℚ) E) :=
  ⟨by norm_num, by norm_num, claim_C2 121 60 (by norm_num) (by norm_num)⟩

theorem filter_length_pos_iff {l : List (ℕ × Bool)} :
    0 < (l.filter (fun o => o.2)).length ↔ ∃ o ∈ l, o.2 = true := by
  rw [List.length_pos_iff_exists_mem]
  constructor
  · rintro ⟨o, ho⟩
    rw [List.mem_filter] at ho
    exact ⟨o, ho.1, ho.2⟩
  · rintro ⟨o, ho, h2⟩
    exact ⟨o, List.mem_filter.mpr ⟨ho, h2⟩⟩

/-- Claim C3: a run that reaches the loop (positive probed duration,
working output directory) and is never observed cancelled reports exactly
one terminal result, successful exactly when at least one attempted
segment encode succeeded; when every attempted segment failed, or the plan
was empty, the single terminal result is the no-segments failure, with no
exception involved. -/
theorem claim_C3 (cfg : WorkerCfg) (hd : 0 < cfg.duration)
    (hL : cfg.segmentDuration ≠ 0) (hmk : cfg.mkdirOk = true)
    (hrun : isRunningAt cfg.cancelAt (nSeg cfg.duration cfg.segmentDuration) = true) :
    (∃ b msg, finishedEvents (runWorker cfg).events = [(b, msg)]
      ∧ (b = true ↔ ∃ o ∈ (runWorker cfg).outcomes, o.2 = true))
    ∧ ((∀ o ∈ (runWorker cfg).outcomes, o.2 = false) →
        finishedEvents (runWorker cfg).events =
          [(false, "No segments were created successfully")]) := by
  rw [finishedEvents_runWorker_of_running cfg hd hL hmk, finishedEvents_finalEvents,
    if_pos hrun]
  by_cases hs : 0 < ((runWorker cfg).outcomes.filter (fun o => o.2)).length
  · rw [if_pos hs]
    refine ⟨⟨true, _, rfl, ?_⟩, ?_⟩
    · simp only [true_iff]
      exact filter_length_pos_iff.mp hs
    · intro hall
      obtain ⟨o, ho, hot⟩ := filter_length_pos_iff.mp hs
      rw [hall o ho] at hot
      cases hot
  · rw [if_neg hs]
    refine ⟨⟨false, _, rfl, ?_⟩, fun _ => rfl⟩
    constructor
    · intro h; cases h
    · intro hex
      exact absurd (filter_length_pos_iff.mpr hex) hs

/-- Claim C3 witness: a concrete run of three 60-second windows over a
125-second source in which every encode fails ends in the no-segments
failure, and one in which the first encode succeeds ends successfully. -/
theorem claim_C3_witness :
    (0 : ℚ) < (125 : ℚ) ∧
    ((∃ b msg, finishedEvents (runWorker
        ⟨"v.mp4", "v", "out", 125, 60, true, "", fun _ => false, none⟩).events = [(b, msg)]
      ∧ (b = true ↔ ∃ o ∈ (runWorker
          ⟨"v.mp4", "v", "out", 125, 60, true, "", fun _ => false, none⟩).outcomes,
            o.2 = true))
    ∧ ((∀ o ∈ (runWorker
          ⟨"v.mp4", "v", "out", 125, 60, true, "", fun _ => false, none⟩).outcomes,
            o.2 = false) →
        finishedEvents (runWorker
          ⟨"v.mp4", "v", "out", 125, 60, true, "", fun _ => false, none⟩).events =
          [(false, "No segments were created successfully")])) :=
  ⟨by norm_num,
    claim_C3 ⟨"v.mp4", "v", "out", 125, 60, true, "", fun _ => false, none⟩
      (by norm_num) (by norm_num) rfl rfl⟩

/-- Claim C4: when the cancellation flag is observed false before loop
iteration k (and k is within the plan's iteration range), the run attempts
exactly the kept windows among iterations 0..k-1: the outcome list is
exactly the filtered prefix, every recorded segment number is at most k,
and the single terminal result is the cancellation message.  The flag is
read only at iteration boundaries by construction of the loop model, so no
in-flight encode is interrupted. -/
theorem claim_C4 (cfg : WorkerCfg) (k : ℕ) (hd : 0 < cfg.duration)
    (hL : cfg.segmentDuration ≠ 0) (hmk : cfg.mkdirOk = true)
    (hc : cfg.cancelAt = some k) (hk : k < nSeg cfg.duration cfg.segmentDuration) :
    (runWorker cfg).outcomes = (List.range k).filterMap (windowOutcome cfg)
    ∧ (∀ o ∈ (runWorker cfg).outcomes, o.1 ≤ k)
    ∧ finishedEvents (runWorker cfg).events =
        [(false, "Operation cancelled by user")] := by
  have hsplitrange : List.range (nSeg cfg.duration cfg.segmentDuration) =
      List.range k ++ ((k + 0) ::
        (List.range (nSeg cfg.duration cfg.segmentDuration - k - 1)).map
          (fun j => k + (j + 1))) := by
    have h1 : nSeg cfg.duration cfg.segmentDuration =
        k + (nSeg cfg.duration cfg.segmentDuration - k) := by omega
    have h2 : nSeg cfg.duration cfg.segmentDuration - k =
        (nSeg cfg.duration cfg.segmentDuration - k - 1) + 1 := by omega
    conv_lhs => rw [h1]
    rw [List.range_add, h2, List.range_succ_eq_map]
    simp [Function.comp]
  have houtcomes : (runWorker cfg).outcomes =
      (List.range k).filterMap (windowOutcome cfg) := by
    rw [runWorker_eq_of_running cfg hd hL hmk]
    show (runSegments cfg _ (List.range (nSeg cfg.duration cfg.segmentDuration))).2 = _
    rw [hsplitrange, runSegments_append_run cfg _ _ _
      (fun i hi => by rw [hc]; simp [isRunningAt, List.mem_range.mp hi]),
      runSegments_break cfg _ _ _ (by rw [hc]; simp [isRunningAt])]
    simp
  refine ⟨houtcomes, ?_, ?_⟩
  · intro o ho
    rw [houtcomes] at ho
    rw [List.mem_filterMap] at ho
    obtain ⟨i, hi, hw⟩ := ho
    rw [List.mem_range] at hi
    unfold windowOutcome at hw
    by_cases hlen : windowLen cfg.duration cfg.segmentDuration i ≤ 1
    · rw [if_pos hlen] at hw; cases hw
    · rw [if_neg hlen] at hw
      have : o = (i + 1, cfg.encodeOk i) := by
        injection hw with h; exact h.symm
      rw [this]
      omega
  · rw [finishedEvents_runWorker_of_running cfg hd hL hmk, finishedEvents_finalEvents,
      if_neg (by rw [hc]; simp [isRunningAt]; omega)]

/-- Claim C4 witness: cancellation observed before iteration 2 of a
5-window plan (300 seconds at 60-second windows, all encodes succeeding)
leaves exactly the outcomes of windows 1 and 2 and ends cancelled. -/
theorem claim_C4_witness :
    (0 : ℚ) < (300 : ℚ) ∧ 2 < nSeg 300 60 ∧
    ((runWorker ⟨"v.mp4", "v", "out", 300, 60, true, "", fun _ => true, some 2⟩).outcomes =
        (List.range 2).filterMap
          (windowOutcome ⟨"v.mp4", "v", "out", 300, 60, true, "", fun _ => true, some 2⟩)
    ∧ (∀ o ∈ (runWorker
        ⟨"v.mp4", "v", "out", 300, 60, true, "", fun _ => true, some 2⟩).outcomes, o.1 ≤ 2)
    ∧ finishedEvents (runWorker
        ⟨"v.mp4", "v", "out", 300, 60, true, "", fun _ => true, some 2⟩).events =
        [(false, "Operation cancelled by user")]) :=
  ⟨by norm_num, by with_unfolding_all decide,
    claim_C4 ⟨"v.mp4", "v", "out", 300, 60, true, "", fun _ => true, some 2⟩ 2
      (by norm_num) (by norm_num) rfl rfl (by with_unfolding_all decide)⟩

/-- Claim C9: every run, whatever the probed duration, the segment length,
the makedirs outcome (the modelled in-run exception), the encode results
and the cancellation schedule, emits exactly one finished event carrying a
(success, message) pair; nothing is thrown past the worker boundary. -/
theorem claim_C9 (cfg : WorkerCfg) :
    (finishedEvents (runWorker cfg).events).length = 1 := by
  by_cases h1 : cfg.duration ≤ 0
  · unfold runWorker
    rw [if_pos h1]
    rfl
  · by_cases h2 : cfg.segmentDuration = 0
    · unfold runWorker
      rw [if_neg h1, if_pos h2]
      rfl
    · by_cases h3 : cfg.mkdirOk = true
      · rw [finishedEvents_runWorker_of_running cfg (not_le.mp h1) h2 h3,
          finishedEvents_finalEvents]
        by_cases h4 : isRunningAt cfg.cancelAt (nSeg cfg.duration cfg.segmentDuration) = true
        · rw [if_pos h4]
          by_cases h5 : 0 < ((runWorker cfg).outcomes.filter (fun o => o.2)).length
          · rw [if_pos h5]; rfl
          · rw [if_neg h5]; rfl
        · rw [if_neg h4]; rfl
      · unfold runWorker
        rw [if_neg h1, if_neg h2, if_pos (by revert h3; cases cfg.mkdirOk <;> simp)]
        rfl

theorem progressEvents_finalEvents (cfg : WorkerCfg) (n s : ℕ) :
    progressEvents (finalEvents cfg n s) = [] := by
  unfold finalEvents
  by_cases h : isRunningAt cfg.cancelAt n = true
  · rw [if_pos h]
    by_cases hs : 0 < s
    · rw [if_pos hs]; rfl
    · rw [if_neg hs]; rfl
  · rw [if_neg h]; rfl

theorem segmentCompletedEvents_finalEvents (cfg : WorkerCfg) (n s : ℕ) :
    segmentCompletedEvents (finalEvents cfg n s) = [] := by
  unfold finalEvents
  by_cases h : isRunningAt cfg.cancelAt n = true
  · rw [if_pos h]
    by_cases hs : 0 < s
    · rw [if_pos hs]; rfl
    · rw [if_neg hs]; rfl
  · rw [if_neg h]; rfl

theorem runWorker_progress_spec (cfg : WorkerCfg) :
    progressEvents (runWorker cfg).events =
      (runWorker cfg).outcomes.map
        (fun o => ⌊(o.1 : ℚ) /
          ((nSeg cfg.duration cfg.segmentDuration : ℕ) : ℚ) * 100⌋) := by
  by_cases h1 : cfg.duration ≤ 0
  · unfold runWorker
    rw [if_pos h1]
    rfl
  · by_cases h2 : cfg.segmentDuration = 0
    · unfold runWorker
      rw [if_neg h1, if_pos h2]
      rfl
    · by_cases h3 : cfg.mkdirOk = true
      · rw [runWorker_eq_of_running cfg (not_le.mp h1) h2 h3]
        show progressEvents (preEvents cfg ++
            infoLogEvents cfg (nSeg cfg.duration cfg.segmentDuration) ++
            (runSegments cfg (nSeg cfg.duration cfg.segmentDuration)
              (List.range (nSeg cfg.duration cfg.segmentDuration))).1 ++
            finalEvents cfg (nSeg cfg.duration cfg.segmentDuration) _) =
          (runSegments cfg (nSeg cfg.duration cfg.segmentDuration)
            (List.range (nSeg cfg.duration cfg.segmentDuration))).2.map _
        rw [progressEvents_append, progressEvents_append, progressEvents_append,
          progressEvents_runSegments, progressEvents_finalEvents,
          show progressEvents (preEvents cfg) = [] from rfl,
          show progressEvents (infoLogEvents cfg
            (nSeg cfg.duration cfg.segmentDuration)) = [] from rfl]
        simp
      · unfold runWorker
        rw [if_neg h1, if_neg h2, if_pos (by revert h3; cases cfg.mkdirOk <;> simp)]
        rfl

/-- Claim C7, amended: the emitted progress value of an attempted window
with 1-based chronological number s is int(s / total_segments * 100) where
total_segments = ceil(duration / segmentLength) counts every
ceiling-division candidate including dropped sub-1-second windows; the
original claim's denominator, the number of windows in the plan, disagrees
when the final window is dropped (see the counterexample).  Progress
events are emitted one per attempted window, in plan order. -/
theorem claim_C7 (cfg : WorkerCfg) :
    progressEvents (runWorker cfg).events =
      (runWorker cfg).outcomes.map
        (fun o => ⌊(o.1 : ℚ) /
          ((nSeg cfg.duration cfg.segmentDuration : ℕ) : ℚ) * 100⌋) :=
  runWorker_progress_spec cfg

/-- Claim C7 counterexample: a 121-second source at 60-second windows has
two attempted windows (the plan) out of three ceiling-division candidates.
The first attempted window's progress event is int(1/3*100) = 33, not
int(1/2*100) = 50 as the claim's plan-count denominator would give. -/
theorem claim_C7_counterexample :
    ¬ (∀ j : ℕ, j < (progressEvents (runWorker cfgExample).events).length →
        (progressEvents (runWorker cfgExample).events).get? j =
          some ⌊((j + 1 : ℕ) : ℚ) /
            (((segPlan (121 : ℚ) 60).length : ℕ) : ℚ) * 100⌋) := by
  intro hall
  have houtcomes : (runWorker cfgExample).outcomes = [(1, true), (2, true)] := by
    with_unfolding_all decide
  have hprog : progressEvents (runWorker cfgExample).events = [33, 66] := by
    rw [runWorker_progress_spec, houtcomes]
    with_unfolding_all decide
  have hlen2 : (segPlan (121 : ℚ) 60).length = 2 := by
    with_unfolding_all decide
  have h2 := hall 0 (by rw [hprog]; norm_num)
  rw [hprog, hlen2] at h2
  revert h2
  with_unfolding_all decide

theorem filterMap_windowOutcome_fst (cfg : WorkerCfg) (l : List ℕ) :
    (l.filterMap (windowOutcome cfg)).map Prod.fst =
      (l.filter (fun i =>
        !decide (windowLen cfg.duration cfg.segmentDuration i ≤ 1))).map
        (fun i => i + 1) := by
  induction l with
  | nil => rfl
  | cons i rest ih =>
    rw [List.filter_cons]
    by_cases hlen : windowLen cfg.duration cfg.segmentDuration i ≤ 1
    · rw [List.filterMap_cons_none
        (by unfold windowOutcome; rw [if_pos hlen]),
        if_neg (by simp [hlen])]
      exact ih
    · rw [List.filterMap_cons_some
        (by unfold windowOutcome; rw [if_neg hlen] :
          windowOutcome cfg i = some (i + 1, cfg.encodeOk i)),
        if_pos (by simp [hlen]), List.map_cons, List.map_cons, ih]

/-- Claim C10: output numbering always uses the window's original
chronological index: the attempted segment numbers are exactly the kept
ceiling-division indices shifted by one (so a dropped window's index is
skipped, never renumbered), the segment-completed events carry the file
path built from that same number, progress events number one per attempted
window, and a dropped sub-1-second window emits no events and no outcome
at all. -/
theorem claim_C10 (cfg : WorkerCfg) (hd : 0 < cfg.duration)
    (hL : cfg.segmentDuration ≠ 0) (hmk : cfg.mkdirOk = true)
    (hrun : isRunningAt cfg.cancelAt (nSeg cfg.duration cfg.segmentDuration) = true) :
    ((runWorker cfg).outcomes.map Prod.fst =
      ((List.range (nSeg cfg.duration cfg.segmentDuration)).filter
        (fun i => !decide (windowLen cfg.duration cfg.segmentDuration i ≤ 1))).map
        (fun i => i + 1))
    ∧ segmentCompletedEvents (runWorker cfg).events =
        ((runWorker cfg).outcomes.filter (fun o => o.2)).map
          (fun o => (outputPath cfg o.1, o.1))
    ∧ (progressEvents (runWorker cfg).events).length = (runWorker cfg).outcomes.length
    ∧ ∀ i : ℕ, windowLen cfg.duration cfg.segmentDuration i ≤ 1 →
        windowEvents cfg (nSeg cfg.duration cfg.segmentDuration) i = []
        ∧ windowOutcome cfg i = none := by
  have houtcomes : (runWorker cfg).outcomes =
      (List.range (nSeg cfg.duration cfg.segmentDuration)).filterMap (windowOutcome cfg) := by
    rw [runWorker_eq_of_running cfg hd hL hmk]
    show (runSegments cfg _ (List.range (nSeg cfg.duration cfg.segmentDuration))).2 = _
    rw [runSegments_all_run cfg _ _
      (fun i hi => isRunningAt_mono (le_of_lt (List.mem_range.mp hi)) hrun)]
  refine ⟨?_, ?_, ?_, ?_⟩
  · rw [houtcomes, filterMap_windowOutcome_fst]
  · rw [runWorker_eq_of_running cfg hd hL hmk]
    show segmentCompletedEvents (preEvents cfg ++
        infoLogEvents cfg (nSeg cfg.duration cfg.segmentDuration) ++
        (runSegments cfg (nSeg cfg.duration cfg.segmentDuration)
          (List.range (nSeg cfg.duration cfg.segmentDuration))).1 ++
        finalEvents cfg (nSeg cfg.duration cfg.segmentDuration) _) =
      ((runSegments cfg (nSeg cfg.duration cfg.segmentDuration)
        (List.range (nSeg cfg.duration cfg.segmentDuration))).2.filter
          (fun o => o.2)).map _
    rw [segmentCompletedEvents_append, segmentCompletedEvents_append,
      segmentCompletedEvents_append, segmentCompletedEvents_runSegments,
      segmentCompletedEvents_finalEvents,
      show segmentCompletedEvents (preEvents cfg) = [] from rfl,
      show segmentCompletedEvents (infoLogEvents cfg
        (nSeg cfg.duration cfg.segmentDuration)) = [] from rfl]
    simp
  · rw [runWorker_progress_spec, List.length_map]
  · intro i hi
    constructor
    · unfold windowEvents
      rw [if_pos hi]
    · unfold windowOutcome
      rw [if_pos hi]

/-- Claim C10 witness: the 121-second, 60-second-window run: candidate
windows 1, 2, 3 with window 3 dropped; the attempted numbers are 1 and 2
with filenames of those indices. -/
theorem claim_C10_witness :
    (0 : ℚ) < (121 : ℚ) ∧
    (((runWorker cfgExample).outcomes.map Prod.fst =
      ((List.range (nSeg cfgExample.duration cfgExample.segmentDuration)).filter
        (fun i => !decide (windowLen cfgExample.duration cfgExample.segmentDuration i ≤ 1))).map
        (fun i => i + 1))
    ∧ segmentCompletedEvents (runWorker cfgExample).events =
        ((runWorker cfgExample).outcomes.filter (fun o => o.2)).map
          (fun o => (outputPath cfgExample o.1, o.1))
    ∧ (progressEvents (runWorker cfgExample).events).length =
        (runWorker cfgExample).outcomes.length
    ∧ ∀ i : ℕ, windowLen cfgExample.duration cfgExample.segmentDuration i ≤ 1 →
        windowEvents cfgExample (nSeg cfgExample.duration cfgExample.segmentDuration) i = []
        ∧ windowOutcome cfgExample i = none) :=
  ⟨by norm_num, claim_C10 cfgExample (by norm_num [cfgExample]) (by norm_num [cfgExample]) rfl rfl⟩

/-- Claim C5: a segment encode is reported successful exactly when the
external process completed with exit status zero and the destination file
exists afterwards; a timeout of the 300-second bounded operation, or any
other exception, is reported as failure for that segment (the source
contains no retry path). -/
theorem claim_C5 :
    (∀ res : EncodeProcResult,
      split_segment res = true ↔ res = EncodeProcResult.completed 0 true)
    ∧ split_segment EncodeProcResult.timedOut = false
    ∧ (∀ msg : String, split_segment (EncodeProcResult.raised msg) = false)
    ∧ encodeTimeoutSeconds = 300 := by
  refine ⟨?_, rfl, fun _ => rfl, rfl⟩
  intro res
  cases res with
  | completed rc ex =>
    constructor
    · intro h
      rw [show split_segment (EncodeProcResult.completed rc ex) = (rc == 0 && ex) from rfl,
        Bool.and_eq_true, beq_iff_eq] at h
      rw [h.1, h.2]
    · intro h
      injection h with h1 h2
      rw [show split_segment (EncodeProcResult.completed rc ex) = (rc == 0 && ex) from rfl,
        h1, h2]
      rfl
  | timedOut =>
    constructor
    · intro h; cases h
    · intro h; cases h
  | raised msg =>
    constructor
    · intro h; cases h
    · intro h; cases h

theorem findDurationLine_eq_zero (ls : List String)
    (h : ∀ line ∈ ls, (pySplit "Duration:" line).length ≤ 1) :
    findDurationLine ls = 0 := by
  induction ls with
  | nil => rfl
  | cons line rest ih =>
    rw [findDurationLine, if_neg (by have := h line (by simp); omega)]
    exact ih (fun l hl => h l (by simp [hl]))

/-- Claim C6: the fallback probe scans the diagnostic text line by line for
a duration token and parses it as hours * 3600 + minutes * 60 + seconds
(first conjunct); a primary-probe failure whose diagnostic line contains
the text Duration: 00:02:03.50, resolves to exactly 123.5 seconds (second
conjunct); if no line contains the token the probe yields 0, the
duration-unavailable sentinel checked by the caller (third conjunct), and
likewise if the token fails to parse (fourth conjunct). -/
theorem claim_C6 :
    (∀ (t p0 p1 p2 : String) (rest : List String) (h m : ℤ) (sec : ℚ),
      pySplit ":" t = p0 :: p1 :: p2 :: rest → pyInt p0 = some h → pyInt p1 = some m →
      pyFloat p2 = some sec →
      time_to_seconds t = (h : ℚ) * 3600 + (m : ℚ) * 60 + sec)
    ∧ get_video_duration
        (ProbeOutcome.fallback "a\n Duration: 00:02:03.50, b\nc") = 247 / 2
    ∧ (∀ out : String,
        (∀ line ∈ pySplit "\n" out, (pySplit "Duration:" line).length ≤ 1) →
        get_duration_fallback out = 0)
    ∧ (∀ (t p0 p1 p2 : String) (rest : List String),
        pySplit ":" t = p0 :: p1 :: p2 :: rest →
        (pyInt p0 = none ∨ pyInt p1 = none ∨ pyFloat p2 = none) →
        time_to_seconds t = 0) := by
  refine ⟨?_, ?_, ?_, ?_⟩
  · intro t p0 p1 p2 rest h m sec hsplit h0 h1 h2
    unfold time_to_seconds
    rw [hsplit]
    show combineTime (pyInt p0) (pyInt p1) (pyFloat p2) = _
    rw [h0, h1, h2]
    rfl
  · with_unfolding_all decide
  · intro out hno
    unfold get_duration_fallback
    exact findDurationLine_eq_zero _ hno
  · intro t p0 p1 p2 rest hsplit hnone
    unfold time_to_seconds
    rw [hsplit]
    show combineTime (pyInt p0) (pyInt p1) (pyFloat p2) = 0
    rcases hnone with h | h | h
    · rw [h]
      cases pyInt p1 <;> cases pyFloat p2 <;> rfl
    · rw [h]
      cases pyInt p0 <;> cases pyFloat p2 <;> rfl
    · rw [h]
      cases pyInt p0 <;> cases pyInt p1 <;> rfl

/-- Claim C6 witness: the sample line Duration: 00:02:03.50 splits into
fields 00, 02 and 03.50, which parse to 0, 2 and 3.5, and the general
formula of the first conjunct gives 0*3600 + 2*60 + 3.5 = 123.5. -/
theorem claim_C6_witness :
    pySplit ":" "00:02:03.50" = ["00", "02", "03.50"] ∧
      time_to_seconds "00:02:03.50" = (0 : ℚ) * 3600 + (2 : ℚ) * 60 + 7 / 2 :=
  ⟨by with_unfolding_all decide,
    claim_C6.1 "00:02:03.50" "00" "02" "03.50" [] 0 2 (7 / 2)
      (by with_unfolding_all decide) (by with_unfolding_all decide)
      (by with_unfolding_all decide) (by with_unfolding_all decide)⟩

/-- Claim C8: formatting any non-negative integer number of seconds to an
HH:MM:SS string and parsing it back (also with a zero .000 fractional part
appended, the HH:MM:SS.sss shape of the claim) recovers exactly the
original number of seconds. -/
theorem claim_C8 (s : ℕ) :
    time_to_seconds (seconds_to_time (s : ℚ)) = (s : ℚ)
    ∧ time_to_seconds (seconds_to_time (s : ℚ) ++ ".000") = (s : ℚ) :=
  ⟨time_to_seconds_seconds_to_time s, time_to_seconds_seconds_to_time_frac s⟩

/-- Claim C8 witness: the round trip at 7384 seconds (02:03:04). -/
theorem claim_C8_witness :
    time_to_seconds (seconds_to_time ((7384 : ℕ) : ℚ)) = ((7384 : ℕ) : ℚ)
    ∧ time_to_seconds (seconds_to_time ((7384 : ℕ) : ℚ) ++ ".000") = ((7384 : ℕ) : ℚ) :=
  claim_C8 7384

end EditSuite
